import Mathlib

/-!
Shallow embedding of the mesh node protocol of `src/final/mesh_communication.py`
(class `MeshNode`, class `MeshMessage`).

Python dictionaries (`self.peers`, `self.message_cache`, `self.message_handlers`)
are modelled as association lists with string keys; `time.time()` values are
modelled as natural numbers (all claims only compare time differences against
integer thresholds).  Side effects (handler invocations, UDP sends, the
"Peer ... is now inactive" notification print) are modelled as explicit event
lists returned by the functions that perform them.
-/

namespace MeshNet

/-- One value of `self.peers[peer_id]`:
a dict with fields `ip`, `last_seen`, `active`. -/
structure PeerRecord where
  ip : String
  last_seen : Nat
  active : Bool
  deriving DecidableEq, Repr

/-- The payload `content` of a message; in Python this is a plain string or an
ad-hoc dictionary, one shape per `msg_type`. -/
inductive Content where
  | text (s : String)
  | addr (ip : String) (port : Nat)
  | fileInfo (file_id filename : String) (size chunks : Nat)
  | fileChunk (file_id : String) (chunk_num total_chunks : Nat) (data : List Nat)
  deriving DecidableEq, Repr

/-- `MeshMessage.__init__` / `MeshMessage.from_dict`: the wire envelope
`{msg_id, sender_id, target_id, content, msg_type, timestamp, hop_count, ttl}`.
`sender_id`/`target_id` are `None`-able in Python, hence `Option String`. -/
structure MeshMessage where
  msg_id : String
  sender_id : Option String
  target_id : Option String
  content : Content
  msg_type : String
  timestamp : Nat
  hop_count : Nat
  ttl : Nat
  deriving DecidableEq, Repr

/-- Observable effects of one processing step:
`dispatch` models invoking the registered handler `self.message_handlers[msg_type]`,
`send` models `self._send_message_to_peer(message, ip, self.port)`. -/
inductive Event where
  | dispatch (msg_type : String) (m : MeshMessage)
  | send (m : MeshMessage) (ip : String)
  deriving DecidableEq, Repr

def isSend (e : Event) : Bool :=
  match e with
  | Event.send _ _ => true
  | _ => false

def isDispatch (e : Event) : Bool :=
  match e with
  | Event.dispatch _ _ => true
  | _ => false

/-- Number of handler invocations recorded in an event list. -/
def countDispatch (evs : List Event) : Nat :=
  (evs.filter isDispatch).length

/-! ### Python dict operations on association lists -/

def dictContains (l : List (String × α)) (k : String) : Bool :=
  l.any (fun e => e.1 == k)

def dictGet? (l : List (String × α)) (k : String) : Option α :=
  (l.find? (fun e => e.1 == k)).map Prod.snd

/-- `d[k] = v`: replace the entry when the key is present, else append. -/
def dictSet (l : List (String × α)) (k : String) (v : α) : List (String × α) :=
  if dictContains l k then l.map (fun e => if e.1 == k then (k, v) else e)
  else l ++ [(k, v)]

/-! ### The node state and the processing steps -/

/-- The mutable state of one `MeshNode` that the relay algorithm reads and
writes: `self.node_id`, `self.peers`, `self.message_cache`. -/
structure NodeState where
  node_id : String
  peers : List (String × PeerRecord)
  message_cache : List (String × Nat)
  deriving DecidableEq, Repr

/-- Model of `self.message_handlers`: the set of registered `msg_type` keys,
plus, for the error-handling analysis, whether the registered handler raises
on a given message. -/
structure HandlerModel where
  registered : List String
  throws : MeshMessage → Bool

/-- Lines 280–293 of `_handle_message`: under `cache_lock`, return (drop) when
`msg_id` is already cached; otherwise record `msg_id` at the current time and
then delete every cached entry older than 300 seconds.  `none` models the
early `return` on a cache hit. -/
def cacheStep (cache : List (String × Nat)) (msg_id : String) (now : Nat) :
    Option (List (String × Nat)) :=
  if dictContains cache msg_id then none
  else some ((dictSet cache msg_id now).filter (fun e => decide (now - e.2 ≤ 300)))

/-- Lines 296–308 of `_handle_message`: `if sender_id and sender_id != self.node_id`
then the peer entry for `sender_id` is replaced by the record with the
source ip, the current time as `last_seen`, and `active = True`.
Python truthiness: `None` and the empty string are falsy. -/
def upsertStep (peers : List (String × PeerRecord)) (node_id : String)
    (sender_id : Option String) (sender_ip : String) (now : Nat) :
    List (String × PeerRecord) :=
  match sender_id with
  | none => peers
  | some sid =>
    if sid ≠ "" ∧ sid ≠ node_id then
      dictSet peers sid ⟨sender_ip, now, true⟩
    else peers

/-- `_broadcast_to_peers(message, exclude_sender)`: send to every active peer,
skipping (when `exclude_sender`) the peer whose `peer_id` equals
`message.sender_id`.  Note the exclusion is by the originating `sender_id`,
not by the transport source address. -/
def broadcastToPeers (peers : List (String × PeerRecord)) (m : MeshMessage)
    (exclude_sender : Bool) : List Event :=
  (peers.filter
      (fun e => e.2.active && !(exclude_sender && m.sender_id == some e.1))).map
    (fun e => Event.send m e.2.ip)

/-- `_relay_message_if_needed(message)` (lines 319–345).  Returns the message
object as it stands after the call (its `hop_count` may have been mutated in
place) together with the sends performed. -/
def relayMessageIfNeeded (node_id : String) (peers : List (String × PeerRecord))
    (m : MeshMessage) : MeshMessage × List Event :=
  if m.ttl ≤ m.hop_count then (m, [])
  else if m.sender_id = some node_id then (m, [])
  else
    let m' := { m with hop_count := m.hop_count + 1 }
    match m.target_id with
    | some t =>
      if t ≠ "" ∧ t ≠ node_id then
        match dictGet? peers t with
        | some info =>
          if info.active then (m', [Event.send m' info.ip])
          else (m', broadcastToPeers peers m' true)
        | none => (m', broadcastToPeers peers m' true)
      else (m', broadcastToPeers peers m' true)
    | none => (m', broadcastToPeers peers m' true)

/-- Result of `_handle_message`: the node state afterwards, the observable
events in order, and whether an exception escaped the call (Python has no
try/except inside `_handle_message`, so a raising handler propagates). -/
structure HandleResult where
  state : NodeState
  events : List Event
  raised : Bool
  deriving Repr

/-- `_handle_message(message, addr)` (lines 277–317), in source order:
dedup check and record, peer upsert, handler dispatch, relay.  The handler
call is not wrapped in a try/except: when the registered handler raises, the
exception escapes and `_relay_message_if_needed` is never reached. -/
def handleMessage (h : HandlerModel) (st : NodeState) (m : MeshMessage)
    (src_ip : String) (now : Nat) : HandleResult :=
  match cacheStep st.message_cache m.msg_id now with
  | none => ⟨st, [], false⟩
  | some cache' =>
    let st' : NodeState :=
      { st with
        peers := upsertStep st.peers st.node_id m.sender_id src_ip now
        message_cache := cache' }
    if h.registered.contains m.msg_type then
      if h.throws m then ⟨st', [Event.dispatch m.msg_type m], true⟩
      else
        ⟨st', Event.dispatch m.msg_type m ::
          (relayMessageIfNeeded st'.node_id st'.peers m).2, false⟩
    else ⟨st', (relayMessageIfNeeded st'.node_id st'.peers m).2, false⟩

/-- `_process_messages` (lines 177–192): pop each queued `(message, addr)` and
call `_handle_message`; any exception is caught, logged and the loop moves on,
so every queued message is processed regardless of earlier failures.
Each queue item is `(message, source_ip, arrival_time)`. -/
def processMessages (h : HandlerModel) (st : NodeState)
    (queue : List (MeshMessage × String × Nat)) : NodeState × List Event :=
  match queue with
  | [] => (st, [])
  | (m, src, now) :: rest =>
    let r := handleMessage h st m src now
    let rec' := processMessages h r.state rest
    (rec'.1, r.events ++ rec'.2)

/-- The staleness sweep inside `_send_heartbeats` (lines 262–271): for every
peer not seen for more than 60 seconds that is still marked active, print
"Peer ... is now inactive" (the notification, second component) and set
`active = False`. -/
def sweepPeers (peers : List (String × PeerRecord)) (now : Nat) :
    List (String × PeerRecord) × List String :=
  (peers.map (fun e =>
      if now - e.2.last_seen > 60 && e.2.active then (e.1, { e.2 with active := false })
      else e),
   (peers.filter (fun e => now - e.2.last_seen > 60 && e.2.active)).map
     (fun e => e.1))

/-- `get_active_peers` (lines 504–511). -/
def getActivePeers (peers : List (String × PeerRecord)) :
    List (String × PeerRecord) :=
  peers.filter (fun e => e.2.active)

/-- `send_text_message(content, target_id)` (lines 420–442): build a fresh
message (`hop_count = 0`, `ttl = 10`, `sender_id = self.node_id`); with a
known active target, unicast to it, otherwise broadcast to all active peers
(without sender exclusion — the node is the sender).  `msg_id` stands for the
freshly drawn `uuid4` and `ts` for `datetime.now()`. -/
def sendTextMessage (node_id : String) (peers : List (String × PeerRecord))
    (content : Content) (target_id : Option String) (msg_id : String) (ts : Nat) :
    List Event :=
  let m : MeshMessage :=
    ⟨msg_id, some node_id, target_id, content, "text", ts, 0, 10⟩
  match target_id with
  | some t =>
    if t ≠ "" then
      match dictGet? peers t with
      | some info =>
        if info.active then [Event.send m info.ip]
        else broadcastToPeers peers m false
      | none => broadcastToPeers peers m false
    else broadcastToPeers peers m false
  | none => broadcastToPeers peers m false

/-- The chunking loop written at lines 472–497 of `send_file`:
`chunks = (file_size + chunk_size - 1) // chunk_size` slices
`file_data[i*chunk_size : min((i+1)*chunk_size, file_size)]`. -/
def fileChunks (file_data : List Nat) (chunk_size : Nat) : List (List Nat) :=
  (List.range ((file_data.length + chunk_size - 1) / chunk_size)).map
    (fun i =>
      (file_data.drop (i * chunk_size)).take
        (min ((i + 1) * chunk_size) file_data.length - i * chunk_size))

/-- `send_file(file_path, target_id, chunk_size)` (lines 444–502).
`msg_id` stands for the `uuid4` of the FILE_INFO message and `file_id` for the
MD5 hex digest of the file bytes.  The function first broadcasts the
FILE_INFO message and then tests `if not self._broadcast_to_peers(info_message)`;
`_broadcast_to_peers` has no return statement, so it returns `None`, which is
falsy, and `send_file` prints "Failed to send file info" and returns `False`
before the chunk loop — the FILE_CHUNK sends at lines 472–497 are unreachable. -/
def sendFile (node_id : String) (peers : List (String × PeerRecord))
    (file_data : List Nat) (file_name file_id : String)
    (target_id : Option String) (chunk_size : Nat) (msg_id : String) (ts : Nat) :
    Bool × List Event :=
  let file_size := file_data.length
  let info_message : MeshMessage :=
    ⟨msg_id, some node_id, target_id,
      Content.fileInfo file_id file_name file_size
        ((file_size + chunk_size - 1) / chunk_size),
      "file_info", ts, 0, 10⟩
  let info_sends := broadcastToPeers peers info_message false
  (false, info_sends)

/-! ### A mesh of nodes: global small-step semantics

Nodes are keyed by their transport address; a `Packet` is a datagram in
flight.  A step either originates a fresh text message at some node
(`send_text_message`) or delivers one in-flight packet to the node at its
destination address (`_handle_message`), turning the sends of that node into new
in-flight packets. -/

structure Packet where
  msg : MeshMessage
  src : String
  dst : String
  deriving DecidableEq, Repr

structure GlobalState where
  nodes : List (String × NodeState)
  flight : List Packet
  deriving DecidableEq, Repr

/-- Turn the send events of the node at address `ip` into packets. -/
def packetsOf (ip : String) (evs : List Event) : List Packet :=
  evs.filterMap (fun e =>
    match e with
    | Event.send m dst => some ⟨m, ip, dst⟩
    | _ => none)

inductive MeshStep (h : HandlerModel) : GlobalState → GlobalState → Prop
  | originate (g : GlobalState) (ip : String) (st : NodeState)
      (hfind : dictGet? g.nodes ip = some st)
      (content : Content) (target : Option String) (msg_id : String) (ts : Nat) :
      MeshStep h g
        ⟨g.nodes,
         g.flight ++ packetsOf ip (sendTextMessage st.node_id st.peers content target msg_id ts)⟩
  | deliver (g : GlobalState) (p : Packet) (hp : p ∈ g.flight) (st : NodeState)
      (hfind : dictGet? g.nodes p.dst = some st) (now : Nat) :
      MeshStep h g
        ⟨dictSet g.nodes p.dst (handleMessage h st p.msg p.src now).state,
         g.flight.erase p ++ packetsOf p.dst (handleMessage h st p.msg p.src now).events⟩

/-- Reachability from an initial mesh with no packets in flight. -/
inductive Reachable (h : HandlerModel) (init : List (String × NodeState)) :
    GlobalState → Prop
  | init : Reachable h init ⟨init, []⟩
  | step {g g' : GlobalState} : Reachable h init g → MeshStep h g g' →
      Reachable h init g'

/-! ### Concrete scenarios used in witnesses and counterexamples -/

def demoHandlers : HandlerModel := ⟨["text"], fun _ => false⟩

def demoStA : NodeState := ⟨"A", [("B", ⟨"ipB", 0, true⟩)], []⟩

def demoInit : List (String × NodeState) := [("ipA", demoStA)]

def demoPacket : Packet :=
  ⟨⟨"m1", some "A", none, Content.text "hello", "text", 0, 0, 10⟩, "ipA", "ipB"⟩

def demoG1 : GlobalState :=
  ⟨demoInit,
   [] ++ packetsOf "ipA"
     (sendTextMessage demoStA.node_id demoStA.peers (Content.text "hello") none "m1" 0)⟩

def cexHandlersThrow : HandlerModel := ⟨["text"], fun _ => true⟩

def cexSt3 : NodeState := ⟨"C", [("B", ⟨"ipB", 0, true⟩)], []⟩

def cexMsg3 : MeshMessage := ⟨"m3", some "A", none, Content.text "x", "text", 0, 0, 10⟩

def cexHandlers4 : HandlerModel := ⟨["text"], fun _ => false⟩

def cexSt4 : NodeState :=
  ⟨"C", [("A", ⟨"ipA", 0, true⟩), ("B", ⟨"ipB", 0, true⟩)], []⟩

def cexMsg4 : MeshMessage := ⟨"m4", some "A", none, Content.text "hi", "text", 0, 1, 10⟩

def cexHandlers5 : HandlerModel := ⟨["text"], fun _ => false⟩

def cexMsg5 : MeshMessage := ⟨"X", some "A", none, Content.text "x", "text", 0, 0, 10⟩

def cexSt5 : NodeState := ⟨"N", [], []⟩

def peers9 : List (String × PeerRecord) :=
  [("B", ⟨"ipB", 0, true⟩), ("C", ⟨"ipC", 100, true⟩)]

/-! ### Helper lemmas -/

theorem mem_broadcastToPeers {peers : List (String × PeerRecord)}
    {m : MeshMessage} {b : Bool} {e : Event} :
    e ∈ broadcastToPeers peers m b ↔
      ∃ pid rec, (pid, rec) ∈ peers ∧ rec.active = true ∧
        ¬(b = true ∧ m.sender_id = some pid) ∧ e = Event.send m rec.ip := by
  simp only [broadcastToPeers, List.mem_map, List.mem_filter]
  constructor
  · rintro ⟨⟨pid, rec⟩, ⟨hmem, hcond⟩, rfl⟩
    simp only [Bool.and_eq_true, Bool.not_eq_true', Bool.and_eq_false_iff,
      beq_eq_false_iff_ne, ne_eq] at hcond
    refine ⟨pid, rec, hmem, hcond.1, ?_, rfl⟩
    rcases hcond.2 with hb | hs
    · rintro ⟨hb', _⟩; rw [hb'] at hb; simp at hb
    · rintro ⟨_, hs'⟩; exact hs hs'
  · rintro ⟨pid, rec, hmem, hact, hnb, rfl⟩
    refine ⟨(pid, rec), ⟨hmem, ?_⟩, rfl⟩
    simp only [Bool.and_eq_true, Bool.not_eq_true', Bool.and_eq_false_iff,
      beq_eq_false_iff_ne, ne_eq]
    refine ⟨hact, ?_⟩
    by_cases hb : b = true
    · right; intro hs; exact hnb ⟨hb, hs⟩
    · left; exact Bool.not_eq_true b |>.mp hb

/-- Every send performed by `_relay_message_if_needed` carries the incoming
message with `hop_count` incremented by exactly one, and only happens when
the TTL is not exhausted and the node is not the originator. -/
theorem relay_events_spec {node_id : String} {peers : List (String × PeerRecord)}
    {m : MeshMessage} {e : Event}
    (he : e ∈ (relayMessageIfNeeded node_id peers m).2) :
    m.hop_count < m.ttl ∧ m.sender_id ≠ some node_id ∧
      ∃ ip, e = Event.send { m with hop_count := m.hop_count + 1 } ip := by
  unfold relayMessageIfNeeded at he
  by_cases h1 : m.ttl ≤ m.hop_count
  · simp [h1] at he
  by_cases h2 : m.sender_id = some node_id
  · simp [h1, h2] at he
  refine ⟨Nat.lt_of_not_le (by omega), h2, ?_⟩
  simp only [if_neg h1, if_neg h2] at he
  rcases htgt : m.target_id with _ | t
  · rw [htgt] at he
    simp only at he
    rcases mem_broadcastToPeers.mp he with ⟨_, rec, _, _, _, rfl⟩
    exact ⟨rec.ip, rfl⟩
  · rw [htgt] at he
    simp only at he
    by_cases h3 : t ≠ "" ∧ t ≠ node_id
    · rw [if_pos h3] at he
      rcases hget : dictGet? peers t with _ | info
      · rw [hget] at he
        simp only at he
        rcases mem_broadcastToPeers.mp he with ⟨_, rec, _, _, _, rfl⟩
        exact ⟨rec.ip, rfl⟩
      · rw [hget] at he
        simp only at he
        by_cases h4 : info.active = true
        · rw [if_pos h4] at he
          simp only [List.mem_singleton] at he
          exact ⟨info.ip, he⟩
        · rw [if_neg h4] at he
          rcases mem_broadcastToPeers.mp he with ⟨_, rec, _, _, _, rfl⟩
          exact ⟨rec.ip, rfl⟩
    · rw [if_neg h3] at he
      rcases mem_broadcastToPeers.mp he with ⟨_, rec, _, _, _, rfl⟩
      exact ⟨rec.ip, rfl⟩

/-- The relay performed on a cache miss never appears among the dispatch
events: relay output consists of sends only. -/
theorem relay_events_send {node_id : String} {peers : List (String × PeerRecord)}
    {m : MeshMessage} {e : Event}
    (he : e ∈ (relayMessageIfNeeded node_id peers m).2) : isSend e = true := by
  rcases relay_events_spec he with ⟨_, _, ip, rfl⟩
  rfl

/-- Every send event emitted by `_handle_message` satisfies
`hop_count ≤ ttl`, and its `ttl` equals the `ttl` of the inbound message. -/
theorem handle_send_events {h : HandlerModel} {st : NodeState} {m : MeshMessage}
    {src_ip : String} {now : Nat} {m' : MeshMessage} {dst : String}
    (he : Event.send m' dst ∈ (handleMessage h st m src_ip now).events) :
    m'.hop_count ≤ m'.ttl ∧ m'.ttl = m.ttl := by
  unfold handleMessage at he
  rcases hc : cacheStep st.message_cache m.msg_id now with _ | cache'
  · rw [hc] at he; simp at he
  · rw [hc] at he
    simp only at he
    have relay_case :
        ∀ {nid : String} {peers : List (String × PeerRecord)},
          Event.send m' dst ∈ (relayMessageIfNeeded nid peers m).2 →
          m'.hop_count ≤ m'.ttl ∧ m'.ttl = m.ttl := by
      intro nid peers hmem
      rcases relay_events_spec hmem with ⟨hlt, _, ip, heq⟩
      cases heq
      exact ⟨by show m.hop_count + 1 ≤ m.ttl; omega, rfl⟩
    by_cases hr : h.registered.contains m.msg_type
    · rw [if_pos hr] at he
      by_cases ht : h.throws m
      · rw [if_pos ht] at he
        simp at he
      · rw [if_neg ht] at he
        simp only [List.mem_cons] at he
        rcases he with he | he
        · exact absurd he (by simp)
        · exact relay_case he
    · rw [if_neg hr] at he
      exact relay_case he

theorem cacheStep_hit {cache : List (String × Nat)} {msg_id : String} {now : Nat}
    (h : dictContains cache msg_id = true) : cacheStep cache msg_id now = none := by
  simp [cacheStep, h]

theorem cacheStep_miss {cache : List (String × Nat)} {msg_id : String} {now : Nat}
    (h : dictContains cache msg_id = false) :
    cacheStep cache msg_id now =
      some ((cache ++ [(msg_id, now)]).filter (fun e => decide (now - e.2 ≤ 300))) := by
  simp [cacheStep, dictSet, h]

/-- On a cache hit, `_handle_message` returns immediately: no state change,
no dispatch, no relay. -/
theorem handleMessage_hit {h : HandlerModel} {st : NodeState} {m : MeshMessage}
    {src_ip : String} {now : Nat}
    (hh : dictContains st.message_cache m.msg_id = true) :
    handleMessage h st m src_ip now = ⟨st, [], false⟩ := by
  unfold handleMessage
  rw [cacheStep_hit hh]

theorem handleMessage_miss_cache {h : HandlerModel} {st : NodeState}
    {m : MeshMessage} {src_ip : String} {now : Nat} {cache' : List (String × Nat)}
    (hc : cacheStep st.message_cache m.msg_id now = some cache') :
    (handleMessage h st m src_ip now).state.message_cache = cache' := by
  unfold handleMessage
  rw [hc]
  dsimp only
  split
  · split
    · rfl
    · rfl
  · rfl

theorem handleMessage_miss_peers {h : HandlerModel} {st : NodeState}
    {m : MeshMessage} {src_ip : String} {now : Nat} {cache' : List (String × Nat)}
    (hc : cacheStep st.message_cache m.msg_id now = some cache') :
    (handleMessage h st m src_ip now).state.peers =
      upsertStep st.peers st.node_id m.sender_id src_ip now := by
  unfold handleMessage
  rw [hc]
  dsimp only
  split
  · split
    · rfl
    · rfl
  · rfl

/-- The freshly recorded entry survives the in-step eviction pass, because its
age at eviction time is `now - now = 0`. -/
theorem contains_after_record {cache : List (String × Nat)} {msg_id : String}
    {now : Nat} :
    dictContains
      ((cache ++ [(msg_id, now)]).filter (fun e => decide (now - e.2 ≤ 300)))
      msg_id = true := by
  unfold dictContains
  rw [List.any_eq_true]
  refine ⟨(msg_id, now), ?_, by simp⟩
  rw [List.mem_filter]
  exact ⟨by simp, by simp⟩

theorem countDispatch_relay (node_id : String) (peers : List (String × PeerRecord))
    (m : MeshMessage) : countDispatch (relayMessageIfNeeded node_id peers m).2 = 0 := by
  unfold countDispatch
  rw [List.length_eq_zero, List.filter_eq_nil_iff]
  intro e he
  have hs := relay_events_send he
  rcases e with _ | _
  · simp [isSend] at hs
  · simp [isDispatch]

/-- A cache miss on a message with a registered handler dispatches that
handler exactly once. -/
theorem countDispatch_miss {h : HandlerModel} {st : NodeState} {m : MeshMessage}
    {ip : String} {now : Nat}
    (hmiss : dictContains st.message_cache m.msg_id = false)
    (hreg : h.registered.contains m.msg_type = true) :
    countDispatch (handleMessage h st m ip now).events = 1 := by
  unfold handleMessage
  rw [cacheStep_miss hmiss]
  dsimp only
  rw [if_pos hreg]
  by_cases ht : h.throws m
  · rw [if_pos ht]
    rfl
  · rw [if_neg ht]
    show countDispatch (Event.dispatch m.msg_type m :: _) = 1
    have h0 := countDispatch_relay st.node_id
      (upsertStep st.peers st.node_id m.sender_id ip now) m
    unfold countDispatch at h0 ⊢
    rw [List.filter_cons_of_pos (by rfl)]
    simp only [List.length_cons]
    omega

/-! ### Claim theorems -/

/-- C1 — Dedup idempotence: for every node state and every message whose
`msg_id` is not yet cached and whose `msg_type` has a registered handler,
delivering the message and then delivering it again (the entry recorded by the first delivery is still in the cache — the cache-hit path never evicts) dispatches
the registered handler exactly once; the second delivery returns with no
dispatch, no relay sends, and an unchanged state. -/
theorem dedup_idempotence (h : HandlerModel) (st : NodeState) (m : MeshMessage)
    (ip1 ip2 : String) (t1 t2 : Nat)
    (hmiss : dictContains st.message_cache m.msg_id = false)
    (hreg : h.registered.contains m.msg_type = true) :
    countDispatch (handleMessage h st m ip1 t1).events = 1 ∧
    handleMessage h (handleMessage h st m ip1 t1).state m ip2 t2 =
      ⟨(handleMessage h st m ip1 t1).state, [], false⟩ := by
  constructor
  · exact countDispatch_miss hmiss hreg
  · apply handleMessage_hit
    rw [handleMessage_miss_cache (cacheStep_miss hmiss)]
    exact contains_after_record

/-- Closed instance of `dedup_idempotence`. -/
theorem dedup_idempotence_witness :
    countDispatch (handleMessage ⟨["text"], fun _ => false⟩
        ⟨"N", [], []⟩ ⟨"m1", some "A", none, Content.text "hi", "text", 0, 0, 10⟩
        "ipA" 0).events = 1 ∧
    handleMessage ⟨["text"], fun _ => false⟩
        (handleMessage ⟨["text"], fun _ => false⟩ ⟨"N", [], []⟩
          ⟨"m1", some "A", none, Content.text "hi", "text", 0, 0, 10⟩ "ipA" 0).state
        ⟨"m1", some "A", none, Content.text "hi", "text", 0, 0, 10⟩ "ipA" 1 =
      ⟨(handleMessage ⟨["text"], fun _ => false⟩ ⟨"N", [], []⟩
          ⟨"m1", some "A", none, Content.text "hi", "text", 0, 0, 10⟩ "ipA" 0).state,
        [], false⟩ :=
  dedup_idempotence ⟨["text"], fun _ => false⟩ ⟨"N", [], []⟩
    ⟨"m1", some "A", none, Content.text "hi", "text", 0, 0, 10⟩ "ipA" "ipA" 0 1
    (by rfl) (by rfl)

theorem sendTextMessage_events {node_id : String} {peers : List (String × PeerRecord)}
    {content : Content} {target : Option String} {msg_id : String} {ts : Nat} {e : Event}
    (he : e ∈ sendTextMessage node_id peers content target msg_id ts) :
    ∃ ip, e = Event.send ⟨msg_id, some node_id, target, content, "text", ts, 0, 10⟩ ip := by
  unfold sendTextMessage at he
  rcases target with _ | t
  · rcases mem_broadcastToPeers.mp he with ⟨pid, rec, _, _, _, rfl⟩
    exact ⟨rec.ip, rfl⟩
  · dsimp only at he
    by_cases h1 : t ≠ ""
    · rw [if_pos h1] at he
      rcases hg : dictGet? peers t with _ | info
      · rw [hg] at he
        rcases mem_broadcastToPeers.mp he with ⟨pid, rec, _, _, _, rfl⟩
        exact ⟨rec.ip, rfl⟩
      · rw [hg] at he
        dsimp only at he
        by_cases h2 : info.active = true
        · rw [if_pos h2] at he
          simp only [List.mem_singleton] at he
          exact ⟨info.ip, he⟩
        · rw [if_neg h2] at he
          rcases mem_broadcastToPeers.mp he with ⟨pid, rec, _, _, _, rfl⟩
          exact ⟨rec.ip, rfl⟩
    · rw [if_neg h1] at he
      rcases mem_broadcastToPeers.mp he with ⟨pid, rec, _, _, _, rfl⟩
      exact ⟨rec.ip, rfl⟩

theorem mem_packetsOf {ip : String} {evs : List Event} {p : Packet}
    (hp : p ∈ packetsOf ip evs) : Event.send p.msg p.dst ∈ evs ∧ p.src = ip := by
  unfold packetsOf at hp
  rcases List.mem_filterMap.mp hp with ⟨e, hmem, heq⟩
  rcases e with ⟨t, m⟩ | ⟨m, dst⟩
  · cases heq
  · rw [Option.some_inj] at heq
    subst heq
    exact ⟨hmem, rfl⟩

/-- C2 — TTL bound: in every reachable state of a mesh, every packet in
flight satisfies `hop_count ≤ ttl` (messages are originated with
`hop_count = 0 ≤ ttl` and relaying both requires `hop_count < ttl` and
preserves `ttl`, so a message originated with `ttl = T` is never observed
with `hop_count > T`); moreover a relay step only happens when
`hop_count < ttl` and increments `hop_count` by exactly 1. -/
theorem ttl_bound (h : HandlerModel) (init : List (String × NodeState))
    (g : GlobalState) (hr : Reachable h init g) :
    (∀ p ∈ g.flight, p.msg.hop_count ≤ p.msg.ttl) ∧
    (∀ (node_id : String) (peers : List (String × PeerRecord)) (m : MeshMessage)
        (e : Event), e ∈ (relayMessageIfNeeded node_id peers m).2 →
      m.hop_count < m.ttl ∧
        ∃ ip, e = Event.send { m with hop_count := m.hop_count + 1 } ip) := by
  constructor
  · induction hr with
    | init =>
      intro p hp
      simp at hp
    | @step g1 g2 hprev hstep ih =>
      cases hstep with
      | originate ip st hfind content target msg_id ts =>
        intro p hp
        rcases List.mem_append.mp hp with hp | hp
        · exact ih p hp
        · rcases mem_packetsOf hp with ⟨hsend, _⟩
          rcases sendTextMessage_events hsend with ⟨ip', heq⟩
          injection heq with h1 _
          rw [h1]
          show (0 : Nat) ≤ 10
          omega
      | deliver p0 hp0 st hfind now =>
        intro p hp
        rcases List.mem_append.mp hp with hp | hp
        · exact ih p (List.erase_subset _ _ hp)
        · rcases mem_packetsOf hp with ⟨hsend, _⟩
          exact (handle_send_events hsend).1
  · intro node_id peers m e he
    rcases relay_events_spec he with ⟨h1, _, hip⟩
    exact ⟨h1, hip⟩

/-- Closed instance of `ttl_bound`: node A (peer B active) originates a text
message; the packet in flight satisfies the hop-count bound. -/
theorem ttl_bound_witness : demoPacket.msg.hop_count ≤ demoPacket.msg.ttl := by
  have hr : Reachable demoHandlers demoInit demoG1 :=
    Reachable.step Reachable.init
      (MeshStep.originate ⟨demoInit, []⟩ "ipA" demoStA rfl
        (Content.text "hello") none "m1" 0)
  exact (ttl_bound demoHandlers demoInit demoG1 hr).1 demoPacket (by decide)

/-- C3 counterexample: node C receives a message whose registered handler
raises.  The exception escapes `_handle_message` (`raised = true`), no send
is performed — even though, had the relay step run on the resulting state, it
would have forwarded to the active peer B.  This refutes "the relay step
still runs for that message". -/
theorem handler_exception_cex :
    (handleMessage cexHandlersThrow cexSt3 cexMsg3 "ipB" 5).raised = true ∧
    (handleMessage cexHandlersThrow cexSt3 cexMsg3 "ipB" 5).events.all
      (fun e => !(isSend e)) = true ∧
    (relayMessageIfNeeded
        (handleMessage cexHandlersThrow cexSt3 cexMsg3 "ipB" 5).state.node_id
        (handleMessage cexHandlersThrow cexSt3 cexMsg3 "ipB" 5).state.peers
        cexMsg3).2 ≠ [] := by
  decide

/-- C3 (amended): when the handler registered for the type of the message raises,
the exception aborts `_handle_message` before the relay step (no send happens
for that message); the exception is caught and logged one level up, in
`_process_messages`, whose loop then continues with the remaining queued
messages. -/
theorem handler_exception_amended (h : HandlerModel) (st : NodeState)
    (m : MeshMessage) (ip : String) (now : Nat)
    (rest : List (MeshMessage × String × Nat))
    (hreg : h.registered.contains m.msg_type = true)
    (hthrows : h.throws m = true) :
    (∀ e ∈ (handleMessage h st m ip now).events, isSend e = false) ∧
    processMessages h st ((m, ip, now) :: rest) =
      ((processMessages h (handleMessage h st m ip now).state rest).1,
        (handleMessage h st m ip now).events ++
          (processMessages h (handleMessage h st m ip now).state rest).2) := by
  constructor
  · intro e he
    unfold handleMessage at he
    rcases hc : cacheStep st.message_cache m.msg_id now with _ | cache'
    · rw [hc] at he
      simp at he
    · rw [hc] at he
      dsimp only at he
      rw [if_pos hreg, if_pos hthrows] at he
      simp only [List.mem_singleton] at he
      subst he
      rfl
  · rfl

/-- Closed instance of `handler_exception_amended`. -/
theorem handler_exception_amended_witness :
    processMessages cexHandlersThrow cexSt3 [(cexMsg3, "ipB", 5)] =
      ((processMessages cexHandlersThrow
          (handleMessage cexHandlersThrow cexSt3 cexMsg3 "ipB" 5).state []).1,
        (handleMessage cexHandlersThrow cexSt3 cexMsg3 "ipB" 5).events ++
          (processMessages cexHandlersThrow
            (handleMessage cexHandlersThrow cexSt3 cexMsg3 "ipB" 5).state []).2) :=
  (handler_exception_amended cexHandlersThrow cexSt3 cexMsg3 "ipB" 5 []
    (by rfl) (by rfl)).2

/-- C4 counterexample: node C knows peers A (the originator) and B (the
relayer, at address "ipB").  A flooded message originated by A arrives at C
from transport address "ipB" (B relayed it, `hop_count = 1`).  The relay at C
sends the forwarded copy to "ipB" — the very address the message was just
received from — because `_broadcast_to_peers` excludes only the peer whose
id equals `sender_id`, not the inbound source address. -/
theorem boomerang_cex :
    Event.send { cexMsg4 with hop_count := 2 } "ipB" ∈
      (handleMessage cexHandlers4 cexSt4 cexMsg4 "ipB" 7).events := by
  decide

/-- C4 (amended): for a flooded (`target_id = None`) message that passes the
relay guards, the relay targets are exactly the addresses of the *active*
peer entries whose `peer_id` differs from the originating
`sender_id` of the message; the transport-level source address is not excluded as such, so
in multi-hop relays the copy can be sent back to the immediate relayer
(it is never sent to a peer entry of the originator). -/
theorem flood_excludes_originator (node_id : String)
    (peers : List (String × PeerRecord)) (m : MeshMessage) (e : Event)
    (hflood : m.target_id = none)
    (hhop : m.hop_count < m.ttl)
    (hsender : m.sender_id ≠ some node_id) :
    (e ∈ (relayMessageIfNeeded node_id peers m).2 ↔
      ∃ pid rec, (pid, rec) ∈ peers ∧ rec.active = true ∧
        m.sender_id ≠ some pid ∧
        e = Event.send { m with hop_count := m.hop_count + 1 } rec.ip) := by
  unfold relayMessageIfNeeded
  rw [if_neg (by omega), if_neg hsender, hflood]
  dsimp only
  rw [mem_broadcastToPeers]
  constructor
  · rintro ⟨pid, rec, hmem, hact, hnb, rfl⟩
    exact ⟨pid, rec, hmem, hact, fun hs => hnb ⟨rfl, hs⟩, rfl⟩
  · rintro ⟨pid, rec, hmem, hact, hns, rfl⟩
    exact ⟨pid, rec, hmem, hact, fun hp => hns hp.2, rfl⟩

/-- Closed instance of `flood_excludes_originator`: in the `cexSt4` scenario
the forwarded copy goes to peer B (the address of the relayer) and the
characterization applies concretely. -/
theorem flood_excludes_originator_witness :
    Event.send { cexMsg4 with hop_count := 2 } "ipB" ∈
      (relayMessageIfNeeded "C" cexSt4.peers cexMsg4).2 :=
  (flood_excludes_originator "C" cexSt4.peers cexMsg4
      (Event.send { cexMsg4 with hop_count := 2 } "ipB")
      rfl (by decide) (by decide)).mpr
    ⟨"B", ⟨"ipB", 0, true⟩, by decide, rfl, by decide, rfl⟩

theorem dictContains_false_iff {l : List (String × α)} {k : String} :
    dictContains l k = false ↔ ∀ e ∈ l, e.1 ≠ k := by
  unfold dictContains
  rw [List.any_eq_false]
  constructor
  · intro h e he heq
    have := h e he
    simp [heq] at this
  · intro h e he
    simp [h e he]

/-- C5 counterexample: message X is processed at `t = 0` (one dispatch);
re-delivery at `t = 1` is dropped (as the claim says); but re-delivery at
`t = 301`, with no other message processed in between, is *also* dropped —
the cache-hit path returns before the eviction pass runs, so X is never
evicted and is not "treated as new", contradicting the claim's
"regardless of whether any other messages were processed in between". -/
theorem cache_expiry_cex :
    countDispatch (handleMessage cexHandlers5 cexSt5 cexMsg5 "ipA" 0).events = 1 ∧
    (handleMessage cexHandlers5
        (handleMessage cexHandlers5 cexSt5 cexMsg5 "ipA" 0).state
        cexMsg5 "ipA" 1).events = [] ∧
    (handleMessage cexHandlers5
        (handleMessage cexHandlers5 cexSt5 cexMsg5 "ipA" 0).state
        cexMsg5 "ipA" 301).events = [] := by
  decide

/-- C5 (amended): with cache retention 300 s, a message X first processed at
time `t0` is dropped on re-delivery at *any* later time while its entry is
cached, and the entry is only evicted when some *other* fresh message is
processed at a time more than 300 s after `t0`; after such an intervening
fresh message, re-delivery of X is treated as new (dispatched again).
Without an intervening fresh message, re-delivery is dropped even after
`t0 + 300`. -/
theorem cache_replay_amended (h : HandlerModel) (st : NodeState)
    (mX mY : MeshMessage) (ipa ipb ipc ipd : String) (t0 t1 tY t2 : Nat)
    (hXY : mY.msg_id ≠ mX.msg_id)
    (hmX : dictContains st.message_cache mX.msg_id = false)
    (hmY : dictContains st.message_cache mY.msg_id = false)
    (hregX : h.registered.contains mX.msg_type = true)
    (hstale : t0 + 300 < tY) :
    handleMessage h (handleMessage h st mX ipa t0).state mX ipb t1 =
      ⟨(handleMessage h st mX ipa t0).state, [], false⟩ ∧
    countDispatch
      (handleMessage h
        (handleMessage h (handleMessage h st mX ipa t0).state mY ipc tY).state
        mX ipd t2).events = 1 := by
  have hcache1 : (handleMessage h st mX ipa t0).state.message_cache =
      (st.message_cache ++ [(mX.msg_id, t0)]).filter
        (fun e => decide (t0 - e.2 ≤ 300)) :=
    handleMessage_miss_cache (cacheStep_miss hmX)
  constructor
  · apply handleMessage_hit
    rw [hcache1]
    exact contains_after_record
  · -- the fresh message Y is a cache miss on the state after X
    have hmY1 : dictContains (handleMessage h st mX ipa t0).state.message_cache
        mY.msg_id = false := by
      rw [hcache1, dictContains_false_iff]
      intro e he heq
      rcases List.mem_filter.mp he with ⟨hemem, _⟩
      rcases List.mem_append.mp hemem with hein | hein
      · exact dictContains_false_iff.mp hmY e hein heq
      · simp only [List.mem_singleton] at hein
        subst hein
        exact hXY heq.symm
    -- processing Y evicts X: its entry is more than 300 s old at tY
    have hmX2 : dictContains
        (handleMessage h (handleMessage h st mX ipa t0).state mY ipc tY).state.message_cache
        mX.msg_id = false := by
      rw [handleMessage_miss_cache (cacheStep_miss hmY1), dictContains_false_iff]
      intro e he heq
      rcases List.mem_filter.mp he with ⟨hemem, hkeep⟩
      rcases List.mem_append.mp hemem with hein | hein
      · -- e is an entry of the cache after X; with key `mX.msg_id` it must be
        -- the X entry recorded at t0, which the eviction filter removes
        rw [hcache1] at hein
        rcases List.mem_filter.mp hein with ⟨hemem0, _⟩
        rcases List.mem_append.mp hemem0 with hein0 | hein0
        · exact dictContains_false_iff.mp hmX e hein0 heq
        · simp only [List.mem_singleton] at hein0
          subst hein0
          simp only [decide_eq_true_eq] at hkeep
          omega
      · simp only [List.mem_singleton] at hein
        subst hein
        exact hXY heq
    exact countDispatch_miss hmX2 hregX

/-- Closed instance of `cache_replay_amended`. -/
theorem cache_replay_amended_witness :
    handleMessage cexHandlers5 (handleMessage cexHandlers5 cexSt5 cexMsg5 "ipA" 0).state
        cexMsg5 "ipA" 1 =
      ⟨(handleMessage cexHandlers5 cexSt5 cexMsg5 "ipA" 0).state, [], false⟩ ∧
    countDispatch
      (handleMessage cexHandlers5
        (handleMessage cexHandlers5
          (handleMessage cexHandlers5 cexSt5 cexMsg5 "ipA" 0).state
          ⟨"Y", some "B", none, Content.text "y", "text", 0, 0, 10⟩ "ipA" 301).state
        cexMsg5 "ipA" 302).events = 1 :=
  cache_replay_amended cexHandlers5 cexSt5 cexMsg5
    ⟨"Y", some "B", none, Content.text "y", "text", 0, 0, 10⟩
    "ipA" "ipA" "ipA" "ipA" 0 1 301 302
    (by decide) (by rfl) (by rfl) (by rfl) (by omega)

/-- C6 — Forwarding frame: when the node decides not to forward (TTL
exhausted, or `sender_id` equals its own id) the message object is returned
untouched — in particular `hop_count` is not mutated; when it does forward,
the message object and every forwarded copy equal the original with *only*
`hop_count` incremented by one (`msg_id`, `sender_id`, `target_id`,
`msg_type`, `content`, `ttl`, `timestamp` all unchanged). -/
theorem relay_frame (node_id : String) (peers : List (String × PeerRecord))
    (m : MeshMessage) :
    (m.ttl ≤ m.hop_count ∨ m.sender_id = some node_id →
      relayMessageIfNeeded node_id peers m = (m, [])) ∧
    (m.hop_count < m.ttl → m.sender_id ≠ some node_id →
      (relayMessageIfNeeded node_id peers m).1 =
        { m with hop_count := m.hop_count + 1 } ∧
      ∀ e ∈ (relayMessageIfNeeded node_id peers m).2,
        ∃ ip, e = Event.send { m with hop_count := m.hop_count + 1 } ip) := by
  constructor
  · rintro (h1 | h2)
    · unfold relayMessageIfNeeded
      rw [if_pos h1]
    · unfold relayMessageIfNeeded
      by_cases h1 : m.ttl ≤ m.hop_count
      · rw [if_pos h1]
      · rw [if_neg h1, if_pos h2]
  · intro hh hs
    constructor
    · unfold relayMessageIfNeeded
      rw [if_neg (by omega), if_neg hs]
      rcases htgt : m.target_id with _ | t
      · rfl
      · dsimp only
        split
        · split
          · split
            · rfl
            · rfl
          · rfl
        · rfl
    · intro e he
      rcases relay_events_spec he with ⟨_, _, ip, rfl⟩
      exact ⟨ip, rfl⟩

/-- Closed instance of `relay_frame`: a TTL-exhausted message is returned
unchanged, and a relayable message ends up with only `hop_count` bumped. -/
theorem relay_frame_witness :
    relayMessageIfNeeded "N" [("B", ⟨"ipB", 0, true⟩)]
        ⟨"m6", some "A", none, Content.text "x", "text", 0, 10, 10⟩ =
      (⟨"m6", some "A", none, Content.text "x", "text", 0, 10, 10⟩, []) ∧
    (relayMessageIfNeeded "N" [("B", ⟨"ipB", 0, true⟩)]
        ⟨"m6", some "A", none, Content.text "x", "text", 0, 3, 10⟩).1 =
      ⟨"m6", some "A", none, Content.text "x", "text", 0, 4, 10⟩ := by
  constructor
  · exact (relay_frame "N" [("B", ⟨"ipB", 0, true⟩)]
      ⟨"m6", some "A", none, Content.text "x", "text", 0, 10, 10⟩).1
      (Or.inl (by decide))
  · exact ((relay_frame "N" [("B", ⟨"ipB", 0, true⟩)]
      ⟨"m6", some "A", none, Content.text "x", "text", 0, 3, 10⟩).2
      (by decide) (by decide)).1

theorem fileChunks_nil {C : Nat} (hC : 0 < C) : fileChunks [] C = [] := by
  unfold fileChunks
  have h0 : (([] : List Nat).length + C - 1) / C = 0 :=
    Nat.div_eq_of_lt (by simp; omega)
  rw [h0]
  rfl

theorem fileChunks_cons {file_data : List Nat} {C : Nat} (hC : 0 < C)
    (hne : file_data ≠ []) :
    fileChunks file_data C =
      file_data.take (min C file_data.length) :: fileChunks (file_data.drop C) C := by
  have hL : 0 < file_data.length := List.length_pos.mpr hne
  unfold fileChunks
  have hk : (file_data.length + C - 1) / C =
      ((file_data.drop C).length + C - 1) / C + 1 := by
    rw [List.length_drop]
    have h1 : file_data.length + C - 1 = (file_data.length - 1) + C := by omega
    rw [h1, Nat.add_div_right _ hC]
    rcases le_or_lt C file_data.length with hle | hlt
    · have h2 : file_data.length - C + C - 1 = file_data.length - 1 := by omega
      rw [h2]
    · have h2 : file_data.length - C = 0 := by omega
      rw [h2]
      rw [Nat.div_eq_of_lt (by omega), Nat.div_eq_of_lt (by omega)]
  rw [hk, List.range_succ_eq_map, List.map_cons, List.map_map]
  congr 1
  · simp
  · apply List.map_congr_left
    intro i _
    show (file_data.drop ((i + 1) * C)).take
        (min ((i + 1 + 1) * C) file_data.length - (i + 1) * C) =
      ((file_data.drop C).drop (i * C)).take
        (min ((i + 1) * C) (file_data.drop C).length - i * C)
    rw [List.drop_drop]
    have e1 : (i + 1) * C = C + i * C := by ring
    have e2 : (i + 1 + 1) * C = C + i * C + C := by ring
    rw [e1, e2, List.length_drop]
    congr 1
    generalize i * C = a
    omega

theorem fileChunks_join_aux (n : Nat) :
    ∀ (file_data : List Nat) (C : Nat), 0 < C → file_data.length ≤ n →
      (fileChunks file_data C).flatten = file_data := by
  induction n with
  | zero =>
    intro data C hC hlen
    have hnil : data = [] := List.length_eq_zero.mp (Nat.le_zero.mp hlen)
    subst hnil
    rw [fileChunks_nil hC]
    rfl
  | succ n ih =>
    intro data C hC hlen
    by_cases hne : data = []
    · subst hne
      rw [fileChunks_nil hC]
      rfl
    · rw [fileChunks_cons hC hne, List.flatten_cons,
        ih (data.drop C) C hC
          (by
            rw [List.length_drop]
            have := List.length_pos.mpr hne
            omega)]
      rcases le_or_lt C data.length with hle | hlt
      · rw [Nat.min_eq_left hle]
        exact List.take_append_drop C data
      · rw [Nat.min_eq_right (Nat.le_of_lt hlt), List.take_length,
          List.drop_eq_nil_of_le (Nat.le_of_lt hlt), List.append_nil]

/-- The chunking loop covers the whole file: concatenating the slices gives
back the file bytes. -/
theorem fileChunks_join (file_data : List Nat) (C : Nat) (hC : 0 < C) :
    (fileChunks file_data C).flatten = file_data :=
  fileChunks_join_aux file_data.length file_data C hC le_rfl

/-- The sizes of the slices produced by the chunking loop. -/
theorem fileChunks_length_map (file_data : List Nat) (C : Nat) :
    (fileChunks file_data C).map List.length =
      (List.range ((file_data.length + C - 1) / C)).map
        (fun i => min ((i + 1) * C) file_data.length - i * C) := by
  unfold fileChunks
  rw [List.map_map]
  apply List.map_congr_left
  intro i _
  show ((file_data.drop (i * C)).take
      (min ((i + 1) * C) file_data.length - i * C)).length = _
  rw [List.length_take, List.length_drop]
  have e1 : (i + 1) * C = i * C + C := by ring
  rw [e1]
  generalize i * C = a
  omega

/-- C7 — code-bug exhibit for `send_file`: after broadcasting the FILE_INFO
message (which correctly announces `ceil(F/C) = 3` chunks for a 150000-byte
file with chunk size 65536), `send_file` evaluates
`if not self._broadcast_to_peers(info_message)`; `_broadcast_to_peers` has no
return statement and returns `None`, which is falsy, so `send_file` returns
`False` before the chunk loop.  Hence zero FILE_CHUNK messages are emitted,
although the (unreachable) chunk loop would have produced exactly 3 chunks of
sizes 65536, 65536, 18928 whose concatenation is the file. -/
theorem sendFile_sends_no_chunks (node_id file_name file_id msg_id : String)
    (peers : List (String × PeerRecord)) (target : Option String)
    (file_data : List Nat) (ts : Nat) (hlen : file_data.length = 150000) :
    (sendFile node_id peers file_data file_name file_id target 65536 msg_id ts).1
      = false ∧
    (sendFile node_id peers file_data file_name file_id target 65536 msg_id ts).2.all
      (fun e =>
        match e with
        | Event.send m _ => m.msg_type == "file_info"
        | Event.dispatch _ _ => false) = true ∧
    (fileChunks file_data 65536).map List.length = [65536, 65536, 18928] ∧
    (fileChunks file_data 65536).flatten = file_data := by
  refine ⟨rfl, ?_, ?_, fileChunks_join file_data 65536 (by omega)⟩
  · rw [List.all_eq_true]
    intro e he
    have he' : e ∈ broadcastToPeers peers
        ⟨msg_id, some node_id, target,
          Content.fileInfo file_id file_name file_data.length
            ((file_data.length + 65536 - 1) / 65536),
          "file_info", ts, 0, 10⟩ false := he
    rcases mem_broadcastToPeers.mp he' with ⟨pid, rec, _, _, _, rfl⟩
    rfl
  · rw [fileChunks_length_map, hlen]
    decide

/-- Closed instance of `sendFile_sends_no_chunks` on a concrete 150000-byte
file. -/
theorem sendFile_sends_no_chunks_witness :
    (sendFile "N" [("B", ⟨"ipB", 0, true⟩)] (List.replicate 150000 0)
        "f.bin" "id" none 65536 "mi" 0).1 = false ∧
    (fileChunks (List.replicate 150000 0) 65536).map List.length =
      [65536, 65536, 18928] := by
  have h := sendFile_sends_no_chunks "N" "f.bin" "id" "mi"
    [("B", ⟨"ipB", 0, true⟩)] none (List.replicate 150000 0) 0
    (List.length_replicate 150000 0)
  exact ⟨h.1, h.2.2.1⟩

theorem cacheStep_none_iff {cache : List (String × Nat)} {msg_id : String}
    {now : Nat} :
    cacheStep cache msg_id now = none ↔ dictContains cache msg_id = true := by
  by_cases hcon : dictContains cache msg_id = true
  · simp [cacheStep_hit hcon, hcon]
  · rw [Bool.not_eq_true] at hcon
    simp [cacheStep_miss hcon, hcon]

/-- Setting a key different from `k'` cannot introduce an entry with key `k'`. -/
theorem dictContains_dictSet_ne {l : List (String × α)} {k k' : String} {v : α}
    (hk : k ≠ k') (h : dictContains l k' = false) :
    dictContains (dictSet l k v) k' = false := by
  unfold dictSet
  by_cases hc : dictContains l k
  · rw [if_pos hc]
    rw [dictContains_false_iff] at h ⊢
    intro e he
    rcases List.mem_map.mp he with ⟨e0, he0, rfl⟩
    by_cases hek : (e0.1 == k) = true
    · rw [if_pos hek]
      exact hk
    · rw [if_neg hek]
      exact h e0 he0
  · rw [if_neg hc]
    rw [dictContains_false_iff] at h ⊢
    intro e he
    rcases List.mem_append.mp he with he | he
    · exact h e he
    · simp only [List.mem_singleton] at he
      subst he
      exact hk

theorem upsertStep_preserves {peers : List (String × PeerRecord)}
    {node_id : String} {sender_id : Option String} {ip : String} {now : Nat}
    (hinv : dictContains peers node_id = false) :
    dictContains (upsertStep peers node_id sender_id ip now) node_id = false ∧
    (sender_id = some node_id → upsertStep peers node_id sender_id ip now = peers) := by
  rcases sender_id with _ | sid
  · exact ⟨hinv, fun _ => rfl⟩
  · have hdef : upsertStep peers node_id (some sid) ip now =
        if sid ≠ "" ∧ sid ≠ node_id then
          dictSet peers sid ⟨ip, now, true⟩
        else peers := rfl
    by_cases hcond : sid ≠ "" ∧ sid ≠ node_id
    · constructor
      · rw [hdef, if_pos hcond]
        exact dictContains_dictSet_ne hcond.2 hinv
      · intro hs
        injection hs with hs
        exact absurd hs hcond.2
    · constructor
      · rw [hdef, if_neg hcond]
        exact hinv
      · intro _
        rw [hdef, if_neg hcond]

/-- C8 — No self-upsert: a message whose `sender_id` equals the id of the node itself
leaves the peer table untouched, and the invariant "`self.node_id` is not a
key of `self.peers`" is preserved by every `_handle_message` step. -/
theorem no_self_upsert (h : HandlerModel) (st : NodeState) (m : MeshMessage)
    (ip : String) (now : Nat)
    (hinv : dictContains st.peers st.node_id = false) :
    dictContains (handleMessage h st m ip now).state.peers st.node_id = false ∧
    (m.sender_id = some st.node_id →
      (handleMessage h st m ip now).state.peers = st.peers) := by
  rcases hc : cacheStep st.message_cache m.msg_id now with _ | cache'
  · rw [handleMessage_hit (cacheStep_none_iff.mp hc)]
    exact ⟨hinv, fun _ => rfl⟩
  · rw [handleMessage_miss_peers hc]
    exact upsertStep_preserves hinv

/-- Closed instance of `no_self_upsert`: a node receiving back its own
message does not insert itself into its peer table. -/
theorem no_self_upsert_witness :
    dictContains
      (handleMessage demoHandlers ⟨"A", [("B", ⟨"ipB", 0, true⟩)], []⟩
        ⟨"m8", some "A", none, Content.text "hi", "text", 0, 1, 10⟩
        "ipB" 3).state.peers "A" = false ∧
    (handleMessage demoHandlers ⟨"A", [("B", ⟨"ipB", 0, true⟩)], []⟩
        ⟨"m8", some "A", none, Content.text "hi", "text", 0, 1, 10⟩
        "ipB" 3).state.peers = [("B", ⟨"ipB", 0, true⟩)] := by
  have h := no_self_upsert demoHandlers ⟨"A", [("B", ⟨"ipB", 0, true⟩)], []⟩
    ⟨"m8", some "A", none, Content.text "hi", "text", 0, 1, 10⟩ "ipB" 3 (by decide)
  exact ⟨h.1, h.2 rfl⟩

theorem keys_nodup_unique {l : List (String × α)}
    (hnd : (l.map Prod.fst).Nodup) {k : String} {a b : α}
    (ha : (k, a) ∈ l) (hb : (k, b) ∈ l) : a = b := by
  induction l with
  | nil => cases ha
  | cons e rest ih =>
    rw [List.map_cons, List.nodup_cons] at hnd
    rcases List.mem_cons.mp ha with ha1 | ha1 <;>
      rcases List.mem_cons.mp hb with hb1 | hb1
    · subst ha1
      injection hb1 with _ h2
      exact h2.symm
    · subst ha1
      exact absurd (List.mem_map_of_mem Prod.fst hb1) hnd.1
    · subst hb1
      exact absurd (List.mem_map_of_mem Prod.fst ha1) hnd.1
    · exact ih hnd.2 ha1 hb1

theorem mem_dictSet_self {l : List (String × α)} {k : String} {v : α} :
    (k, v) ∈ dictSet l k v := by
  unfold dictSet
  by_cases hc : dictContains l k
  · rw [if_pos hc]
    unfold dictContains at hc
    rcases List.any_eq_true.mp hc with ⟨e, he, hek⟩
    rw [List.mem_map]
    exact ⟨e, he, by rw [if_pos hek]⟩
  · rw [if_neg hc]
    exact List.mem_append.mpr (Or.inr (by simp))

/-- Membership in the notification list of a sweep, unfolded. -/
theorem mem_sweep_notifications {peers : List (String × PeerRecord)} {now : Nat}
    {pid : String} :
    pid ∈ (sweepPeers peers now).2 ↔
      ∃ r, (pid, r) ∈ peers ∧ r.active = true ∧ now - r.last_seen > 60 := by
  unfold sweepPeers
  dsimp only
  rw [List.mem_map]
  constructor
  · rintro ⟨e, he, rfl⟩
    rcases List.mem_filter.mp he with ⟨hmem, hcond⟩
    simp only [Bool.and_eq_true, decide_eq_true_eq] at hcond
    exact ⟨e.2, hmem, hcond.2, hcond.1⟩
  · rintro ⟨r, hmem, hact, hstale⟩
    refine ⟨(pid, r), List.mem_filter.mpr ⟨hmem, ?_⟩, rfl⟩
    simp only [Bool.and_eq_true, decide_eq_true_eq]
    exact ⟨hstale, hact⟩

/-- C9 — Staleness sweep: (i) after a sweep every record not seen for more
than the staleness window is inactive; (ii) the "peer lost" notification is
emitted for exactly the peers that were active and stale at sweep time (so,
exactly once per active-to-stale transition); (iii) a repeated sweep, at any
later time, never re-emits the notification for a peer demoted by the first
sweep; (iv) after the record of the peer is refreshed (an inbound message upserts
it with `active = true`), a later sweep at which it is stale again does emit
the notification again. -/
theorem staleness_sweep_once (peers : List (String × PeerRecord)) (pid : String)
    (newrec : PeerRecord) (now now2 now3 : Nat)
    (hnd : (peers.map Prod.fst).Nodup) :
    (∀ q ∈ (sweepPeers peers now).1, now - q.2.last_seen > 60 →
      q.2.active = false) ∧
    (pid ∈ (sweepPeers peers now).2 ↔
      ∃ r, (pid, r) ∈ peers ∧ r.active = true ∧ now - r.last_seen > 60) ∧
    (pid ∈ (sweepPeers peers now).2 →
      pid ∉ (sweepPeers (sweepPeers peers now).1 now2).2) ∧
    (newrec.active = true → now3 - newrec.last_seen > 60 →
      pid ∈ (sweepPeers (dictSet (sweepPeers peers now).1 pid newrec) now3).2) := by
  refine ⟨?_, mem_sweep_notifications, ?_, ?_⟩
  · intro q hq hstale
    unfold sweepPeers at hq
    dsimp only at hq
    rcases List.mem_map.mp hq with ⟨e, he, rfl⟩
    by_cases hcond : (decide (now - e.2.last_seen > 60) && e.2.active) = true
    · rw [if_pos hcond]
    · rw [if_neg hcond] at hstale ⊢
      simp only [Bool.and_eq_true, decide_eq_true_eq, not_and] at hcond
      simpa using hcond hstale
  · intro hpid hpid2
    rcases mem_sweep_notifications.mp hpid with ⟨r, hmem, hact, hstale⟩
    rcases mem_sweep_notifications.mp hpid2 with ⟨r2, hmem2, hact2, _⟩
    -- the entry for `pid` after the first sweep is the demoted record
    unfold sweepPeers at hmem2
    dsimp only at hmem2
    rcases List.mem_map.mp hmem2 with ⟨e, he, heq⟩
    have hfst : e.1 = pid := by
      by_cases hcond : (decide (now - e.2.last_seen > 60) && e.2.active) = true
      · rw [if_pos hcond] at heq
        exact congrArg Prod.fst heq
      · rw [if_neg hcond] at heq
        exact congrArg Prod.fst heq
    have hesnd : e.2 = r := by
      apply keys_nodup_unique hnd _ hmem
      rw [← hfst]
      exact he
    by_cases hcond : (decide (now - e.2.last_seen > 60) && e.2.active) = true
    · rw [if_pos hcond] at heq
      have : r2.active = false := by
        have := congrArg (fun p => p.2.active) heq
        simpa using this.symm
      rw [hact2] at this
      cases this
    · rw [if_neg hcond] at heq
      simp only [Bool.and_eq_true, decide_eq_true_eq, not_and] at hcond
      rw [hesnd] at hcond
      have : r2 = r := by
        have := congrArg Prod.snd heq
        rw [hesnd] at this
        exact this.symm
      subst this
      exact hcond (by rw [hesnd] at *; omega) hact |>.elim
  · intro hact hstale
    apply mem_sweep_notifications.mpr
    exact ⟨newrec, mem_dictSet_self, hact, hstale⟩

/-- Closed instance of `staleness_sweep_once`: peer B (last seen at 0) is
notified at the sweep at t=70, not re-notified by the sweep at t=140 while it
stays stale, and notified again at t=250 after being refreshed at t=150. -/
theorem staleness_sweep_once_witness :
    "B" ∈ (sweepPeers peers9 70).2 ∧
    "B" ∉ (sweepPeers (sweepPeers peers9 70).1 140).2 ∧
    "B" ∈ (sweepPeers (dictSet (sweepPeers peers9 70).1 "B" ⟨"ipB", 150, true⟩)
            250).2 := by
  have h := staleness_sweep_once peers9 "B" ⟨"ipB", 150, true⟩ 70 140 250 (by decide)
  refine ⟨?_, ?_, h.2.2.2 rfl (by decide)⟩
  · exact h.2.1.mpr ⟨⟨"ipB", 0, true⟩, by decide, rfl, by decide⟩
  · exact h.2.2.1 (h.2.1.mpr ⟨⟨"ipB", 0, true⟩, by decide, rfl, by decide⟩)

/-- C10 — Relaying past the target: on an inbound message addressed to this
very node (`target_id = self.node_id`) whose originator is someone else and
whose TTL is not exhausted, `_relay_message_if_needed` still increments
`hop_count` and floods the copy to every active peer except the originating
`sender_id` — arrival at the addressed target does not stop propagation
(the guard `message.target_id != self.node_id` sends the target itself to the
flooding branch). -/
theorem relay_past_target (node_id : String) (peers : List (String × PeerRecord))
    (m : MeshMessage)
    (htgt : m.target_id = some node_id)
    (hsender : m.sender_id ≠ some node_id)
    (hhop : m.hop_count < m.ttl) :
    relayMessageIfNeeded node_id peers m =
      ({ m with hop_count := m.hop_count + 1 },
        broadcastToPeers peers { m with hop_count := m.hop_count + 1 } true) ∧
    ∀ pid rec, (pid, rec) ∈ peers → rec.active = true → m.sender_id ≠ some pid →
      Event.send { m with hop_count := m.hop_count + 1 } rec.ip ∈
        (relayMessageIfNeeded node_id peers m).2 := by
  have hmain : relayMessageIfNeeded node_id peers m =
      ({ m with hop_count := m.hop_count + 1 },
        broadcastToPeers peers { m with hop_count := m.hop_count + 1 } true) := by
    unfold relayMessageIfNeeded
    rw [if_neg (by omega), if_neg hsender, htgt]
    dsimp only
    rw [if_neg (by
      rintro ⟨_, hne⟩
      exact hne rfl)]
  refine ⟨hmain, ?_⟩
  intro pid rec hmem hact hns
  rw [hmain]
  exact mem_broadcastToPeers.mpr ⟨pid, rec, hmem, hact, fun hp => hns hp.2, rfl⟩

/-- Closed instance of `relay_past_target`: node N is the target of a
message from A, yet forwards it to its active peer B. -/
theorem relay_past_target_witness :
    Event.send ⟨"m10", some "A", some "N", Content.text "x", "text", 0, 3, 10⟩
        "ipB" ∈
      (relayMessageIfNeeded "N" [("B", ⟨"ipB", 0, true⟩)]
        ⟨"m10", some "A", some "N", Content.text "x", "text", 0, 2, 10⟩).2 :=
  (relay_past_target "N" [("B", ⟨"ipB", 0, true⟩)]
      ⟨"m10", some "A", some "N", Content.text "x", "text", 0, 2, 10⟩
      rfl (by decide) (by decide)).2
    "B" ⟨"ipB", 0, true⟩ (by decide) rfl (by decide)

end MeshNet
